import Mathlib

/-!
Shallow embedding of the mongofuse filesystem semantics engine
(`extra.js` helpers and `fuseops.js` operation handlers).

The MongoDB backing store is modelled as two in-memory collections:
`inodes` is an association list keyed by inode id and `directory` is a
list of directory entries.  MongoDB `Binary` payloads are lists of byte
values, `Date.now()` is an explicit `now : Nat` parameter (milliseconds),
and the FUSE calling context (`fuse.context()`) and the POSIX group
database (`posix.getpwnam` / `posix.getgrnam`, used by `useringroup`)
are explicit parameters.
-/

namespace Mongofuse

/-- Error codes as defined by `fuse-bindings` (negated Linux errno). -/
def eperm : Int := -1

def enoent : Int := -2

def eio : Int := -5

def ebadf : Int := -9

def eacces : Int := -13

def enotdir : Int := -20

def eisdir : Int := -21

def einval : Int := -22

def efbig : Int := -27

def erange : Int := -34

def enotempty : Int := -39

def enodata : Int := -61

/-- An inode document in the `inodes` collection (schema per `models.js`):
`mode`/`rdev` and the timestamps are numbers, `size` is lazily populated,
`data` is an optional Binary payload, `xattr` an optional map from encoded
attribute names to Binary values. -/
structure Inode where
  mode  : Nat
  uid   : Int
  gid   : Int
  rdev  : Nat := 0
  ctime : Nat
  mtime : Nat
  atime : Nat
  size  : Option Nat := none
  data  : Option (List Nat) := none
  xattr : Option (List (String × List Nat)) := none
  deriving Repr, DecidableEq

/-- A document in the `directory` collection: one name binding under a
parent entry (the root entry has `name = ""` and `parent = null`). -/
structure DirEntry where
  id     : Nat
  name   : String
  parent : Option Nat
  inode  : Nat
  deriving Repr, DecidableEq

/-- One entry of the in-memory `openFiles` table. -/
structure OpenFile where
  inode : Nat
  flags : Nat
  deriving Repr, DecidableEq

/-- The whole mutable state: the two MongoDB collections plus the
in-process open-file table (`mf.openFiles`, counter `next`). -/
structure FS where
  inodes    : List (Nat × Inode)
  directory : List DirEntry
  openFiles : List (Nat × OpenFile)
  nextFd    : Nat := 10
  deriving Repr, DecidableEq

/-- The FUSE calling context (`fuse.context()`). -/
structure Ctx where
  uid : Int
  gid : Int
  deriving Repr, DecidableEq

/-- `db.inodes.findOne({ _id: i })`. -/
def ilookup (fs : FS) (i : Nat) : Option Inode :=
  (fs.inodes.find? (fun p => p.1 == i)).map Prod.snd

/-- `db.inodes.update({ _id: i }, { $set: ... })`, as a field transformer
applied to the matching document. -/
def updateInode (fs : FS) (i : Nat) (f : Inode → Inode) : FS :=
  { fs with inodes := fs.inodes.map (fun p => if p.1 == i then (p.1, f p.2) else p) }

/-- `db.inodes.remove({ _id: i }, true)`; `_id` has a unique index so
just-one removal coincides with dropping every record with that id. -/
def removeInodeRec (fs : FS) (i : Nat) : FS :=
  { fs with inodes := fs.inodes.filter (fun p => p.1 != i) }

/-- `db.directory.count({ inode: i })` — the hardlink count. -/
def dircount (fs : FS) (i : Nat) : Nat :=
  (fs.directory.filter (fun e => e.inode == i)).length

/-- `mf.openFiles[fd]`. -/
def fdlookup (fs : FS) (fd : Nat) : Option OpenFile :=
  (fs.openFiles.find? (fun p => p.1 == fd)).map Prod.snd

/-- The `for (let fd in mf.openFiles)` scan of `iremove`: is some open
descriptor referencing inode `i`? -/
def hasOpen (fs : FS) (i : Nat) : Bool :=
  fs.openFiles.any (fun p => p.2.inode == i)

/-- `db.directory.findOne({ name: name, parent: parent })`. -/
def findDirent (dir : List DirEntry) (name : String) (parent : Option Nat) :
    Option DirEntry :=
  dir.find? (fun e => e.name == name && e.parent == parent)

/-- A possibly failing directory query, as seen by `resolvePath`:
`Except.error` is a store failure (the `err` callback argument),
`Except.ok none` is "no matching document". -/
def storeFind (dir : List DirEntry) (name : String) (parent : Option Nat) :
    Except Unit (Option DirEntry) :=
  Except.ok (findDirent dir name parent)

/-- The `async.waterfall` chain built by `resolvePath`: look up each
component name under the current parent id; a store error becomes `EIO`,
a missing entry becomes `ENOENT`, and a found entry's id becomes the
parent for the next component.  The `[]` case is unreachable because
`String.splitOn` never returns an empty list. -/
def resolveNames (find : String → Option Nat → Except Unit (Option DirEntry)) :
    List String → Option Nat → Except Int DirEntry
  | [], _ => Except.error enoent
  | name :: rest, parent =>
    match find name parent with
    | Except.error _ => Except.error eio
    | Except.ok none => Except.error enoent
    | Except.ok (some e) =>
      match rest with
      | [] => Except.ok e
      | _ :: _ => resolveNames find rest (some e.id)

/-- Splitting on the `/` character, with JavaScript `String.split`
semantics: the empty string yields one empty component. -/
def splitSlashAux : List Char → List Char → List String
  | [], acc => [String.mk acc.reverse]
  | c :: rest, acc =>
    if c = '/' then String.mk acc.reverse :: splitSlashAux rest []
    else splitSlashAux rest (c :: acc)

/-- `path.split("/")`. -/
def splitSlash (s : String) : List String :=
  splitSlashAux s.toList []

/-- `resolvePath(path, cb)`: `"/"` is rewritten to `""` (so it splits into
one empty component rather than two), the path is split on `/`, and the
waterfall is seeded with the synthetic parent `{ _id: null }`. -/
def resolvePath (find : String → Option Nat → Except Unit (Option DirEntry))
    (path : String) : Except Int DirEntry :=
  resolveNames find (splitSlash (if path = "/" then "" else path)) none

/-- `chkaccess(inode, mode)`: the permission checker.  `grp` stands for
`useringroup` (resolved through the platform user/group database). -/
def chkaccess (ctx : Ctx) (grp : Int → Int → Bool) (inode : Inode) (mode : Int) :
    Int :=
  if mode < 0 ∨ 7 < mode then einval
  else if mode = 0 then 0
  else if ctx.uid = 0 then 0
  else if ctx.uid = inode.uid then
    if ((inode.mode >>> 6) &&& 7) &&& mode.toNat = mode.toNat then 0 else eacces
  else if grp ctx.uid inode.gid then
    if ((inode.mode >>> 3) &&& 7) &&& mode.toNat = mode.toNat then 0 else eacces
  else
    if (inode.mode &&& 7) &&& mode.toNat = mode.toNat then 0 else eacces

/-- The refresh condition of `chkatime`: level 2 (`atime`) always, level 1
(`relatime`) when atime is not ahead of mtime, not ahead of ctime, or at
least a day behind `now`. -/
def atimeCond (level : Nat) (now : Nat) (ino : Inode) : Bool :=
  level == 2 ||
    (level == 1 &&
      (ino.mtime ≥ ino.atime || ino.ctime ≥ ino.atime ||
        now - ino.atime ≥ 24 * 60 * 60 * 1000))

/-- `chkatime(inode, cb)` for the inode stored at id `i`: when the
condition holds, persist `atime = Date.now()`; the returned flag records
whether a store write happened. -/
def chkatime (level : Nat) (now : Nat) (fs : FS) (i : Nat) (ino : Inode) :
    FS × Bool :=
  if atimeCond level now ino then
    (updateInode fs i (fun d => { d with atime := now }), true)
  else (fs, false)

/-- `iremove(inode, cb)`: skip if any open descriptor references the
inode; skip if any directory entry still references it; otherwise delete
the inode record. -/
def iremove (fs : FS) (i : Nat) : FS × Int :=
  if hasOpen fs i then (fs, 0)
  else if dircount fs i ≠ 0 then (fs, 0)
  else (removeInodeRec fs i, 0)

/-- `release(path, fd, cb)`: drop the descriptor, then `iremove` its
inode. -/
def release (fs : FS) (fd : Nat) : FS × Int :=
  match fdlookup fs fd with
  | none => (fs, ebadf)
  | some of =>
    let fs' := { fs with openFiles := fs.openFiles.filter (fun p => p.1 != fd) }
    iremove fs' of.inode

/-- The zero-filled truncation buffer of `itruncate`:
`new Buffer(size).fill(0)` overlaid with `doc.data.read(0, size)`. -/
def truncData (data0 : List Nat) (size : Nat) : List Nat :=
  data0.take size ++ List.replicate (size - (data0.take size).length) 0

/-- `itruncate(inode, size, cb)`: look up the inode, check write
permission (`chkaccess(doc, 0x2)`), reject sizes over 16000000 with
`EFBIG`, else persist the copied-and-zero-filled buffer with fresh
`ctime`/`mtime`. -/
def itruncate (ctx : Ctx) (grp : Int → Int → Bool) (now : Nat) (fs : FS)
    (i : Nat) (size : Nat) : FS × Int :=
  match ilookup fs i with
  | none => (fs, enoent)
  | some doc =>
    let access := chkaccess ctx grp doc 2
    if access ≠ 0 then (fs, access)
    else if 16000000 < size then (fs, efbig)
    else
      (updateInode fs i (fun d =>
        { d with ctime := now, mtime := now,
                 data := some (truncData (doc.data.getD []) size) }), 0)

/-- `igetattr(inode, cb)`: fetch the inode (data projected away), set
`nlink` from the directory count; if `size` is absent compute it from the
payload length (0 when absent) and persist it.  The result pairs the
returned document with its `nlink`; the final component counts how many
store writes the call performed. -/
def igetattr (fs : FS) (i : Nat) : FS × Except Int (Inode × Nat) × Nat :=
  match ilookup fs i with
  | none => (fs, Except.error enoent, 0)
  | some doc =>
    let cnt := dircount fs i
    match doc.size with
    | some _ => (fs, Except.ok (doc, cnt), 0)
    | none =>
      let sz := (doc.data.getD []).length
      (updateInode fs i (fun d => { d with size := some sz }),
        Except.ok ({ doc with size := some sz }, cnt), 1)

/-- `Binary.prototype.read(pos, len)`. -/
def binRead (data : List Nat) (pos len : Nat) : List Nat :=
  (data.drop pos).take len

/-- `Binary.prototype.write(dst, pos)`: splice `dst` into the payload at
`pos`, zero-extending any gap and keeping the tail beyond the write. -/
def binWrite (data dst : List Nat) (pos : Nat) : List Nat :=
  data.take pos ++ List.replicate (pos - (data.take pos).length) 0 ++ dst ++
    data.drop (pos + dst.length)

/-- `read(path, fd, buf, len, pos, cb)`: `EBADF` on an unknown descriptor
or one opened write-only (`flags & 3 === 1`), `ENOENT` on a vanished
inode, `EISDIR` on a directory, then refresh atime and copy
`doc.data.read(pos, len)` into the caller's buffer (capacity `buflen`),
returning the byte count and the bytes delivered. -/
def read (level now : Nat) (fs : FS) (fd : Nat) (buflen len pos : Nat) :
    FS × Int × List Nat :=
  match fdlookup fs fd with
  | none => (fs, ebadf, [])
  | some of =>
    if of.flags &&& 3 = 1 then (fs, ebadf, [])
    else
      match ilookup fs of.inode with
      | none => (fs, enoent, [])
      | some doc =>
        if doc.mode &&& 0o170000 = 0o040000 then (fs, eisdir, [])
        else
          let fs' := (chkatime level now fs of.inode doc).1
          match doc.data with
          | none => (fs', 0, [])
          | some d =>
            let srcbuf := binRead d pos len
            ((fs', (min srcbuf.length buflen : Nat), srcbuf.take buflen))

/-- `write(path, fd, buf, len, pos, cb)`: `EBADF` on an unknown descriptor
or one opened read-only (`flags & 3 === 0`), `EISDIR` on a directory;
otherwise copy the caller's bytes into a fresh buffer of exactly `len`
bytes, splice it into the payload at `pos`, reject payloads over 16000000
bytes with `EFBIG`, and persist payload, `size` and fresh timestamps. -/
def write (now : Nat) (fs : FS) (fd : Nat) (buf : List Nat) (len pos : Nat) :
    FS × Int :=
  match fdlookup fs fd with
  | none => (fs, ebadf)
  | some of =>
    if of.flags &&& 3 = 0 then (fs, ebadf)
    else
      match ilookup fs of.inode with
      | none => (fs, enoent)
      | some doc =>
        if doc.mode &&& 0o170000 = 0o040000 then (fs, eisdir)
        else
          let dstbuf := buf.take len ++ List.replicate (len - (buf.take len).length) 0
          let copied := min len buf.length
          let newdata := binWrite (doc.data.getD []) dstbuf pos
          if 16000000 < newdata.length then (fs, efbig)
          else
            (updateInode fs of.inode (fun d =>
              { d with ctime := now, mtime := now,
                       size := some newdata.length, data := some newdata }),
              (copied : Nat))

/-- UTF-8 encoding of one code point (`Buffer(str)` semantics). -/
def utf8Bytes (c : Nat) : List Nat :=
  if c < 0x80 then [c]
  else if c < 0x800 then [0xC0 ||| (c >>> 6), 0x80 ||| (c &&& 0x3F)]
  else if c < 0x10000 then
    [0xE0 ||| (c >>> 12), 0x80 ||| ((c >>> 6) &&& 0x3F), 0x80 ||| (c &&& 0x3F)]
  else
    [0xF0 ||| (c >>> 18), 0x80 ||| ((c >>> 12) &&& 0x3F),
      0x80 ||| ((c >>> 6) &&& 0x3F), 0x80 ||| (c &&& 0x3F)]

/-- The UTF-8 bytes of a string. -/
def strBytes (s : String) : List Nat :=
  s.toList.foldr (fun ch acc => utf8Bytes ch.toNat ++ acc) []

/-- The Base64 alphabet. -/
def b64char (n : Nat) : Char :=
  "ABCDEFGHIJKLMNOPQRSTUVWXYZabcdefghijklmnopqrstuvwxyz0123456789+/".toList.getD n '?'

/-- Base64 encoding of a byte list, three bytes at a time with `=`
padding. -/
def b64groups : List Nat → List Char
  | [] => []
  | [a] => [b64char (a >>> 2), b64char ((a &&& 3) <<< 4), '=', '=']
  | [a, b] =>
    [b64char (a >>> 2), b64char (((a &&& 3) <<< 4) ||| (b >>> 4)),
      b64char ((b &&& 15) <<< 2), '=']
  | a :: b :: c :: rest =>
    b64char (a >>> 2) :: b64char (((a &&& 3) <<< 4) ||| (b >>> 4)) ::
      b64char (((b &&& 15) <<< 2) ||| (c >>> 6)) :: b64char (c &&& 63) ::
        b64groups rest

/-- `b64enc(str)`: `new Buffer(str).toString('base64')`. -/
def b64enc (s : String) : String :=
  String.mk (b64groups (strBytes s))

/-- `getxattr(path, name, buf, len, off, cb)`: resolve the path, fetch the
inode, `ENODATA` when the xattr map or the (Base64-encoded) key is absent;
with a zero-length destination report the value's length, with a too-small
destination report `ERANGE`, else copy the value into the caller's buffer
(capacity `buflen`, write position `off`) and return the byte count. -/
def getxattr (fs : FS) (path name : String) (buflen len off : Nat) :
    Int × List Nat :=
  match resolvePath (storeFind fs.directory) path with
  | Except.error e => (e, [])
  | Except.ok dirent =>
    match ilookup fs dirent.inode with
    | none => (enoent, [])
    | some ino =>
      match ino.xattr with
      | none => (enodata, [])
      | some m =>
        match m.lookup (b64enc name) with
        | none => (enodata, [])
        | some v =>
          if len = 0 then ((v.length : Nat), [])
          else if len < v.length then (erange, [])
          else
            let srcbuf := binRead v 0 len
            (((min srcbuf.length (buflen - off) : Nat),
              srcbuf.take (buflen - off)))

/-- `chown(path, uid, gid, cb)`: resolve path and inode; build the update
set with `uid`/`gid` included only when non-negative; `EPERM` unless the
caller is root or the owner, unless a uid change targets the caller's own
uid, and unless a gid change targets a group the caller belongs to; then
persist the set together with a fresh `ctime`. -/
def chown (ctx : Ctx) (grp : Int → Int → Bool) (now : Nat) (fs : FS)
    (path : String) (uid gid : Int) : FS × Int :=
  match resolvePath (storeFind fs.directory) path with
  | Except.error e => (fs, e)
  | Except.ok dirent =>
    match ilookup fs dirent.inode with
    | none => (fs, enoent)
    | some doc =>
      if ctx.uid ≠ 0 ∧ ctx.uid ≠ doc.uid then (fs, eperm)
      else if ctx.uid ≠ 0 ∧ uid ≠ -1 ∧ ctx.uid ≠ uid then (fs, eperm)
      else if ctx.uid ≠ 0 ∧ gid ≠ -1 ∧ ¬grp ctx.uid gid then (fs, eperm)
      else
        (updateInode fs dirent.inode (fun d =>
          { d with ctime := now,
                   uid := if 0 ≤ uid then uid else d.uid,
                   gid := if 0 ≤ gid then gid else d.gid }), 0)

/-! ### Store lemmas -/

theorem find?_map_update (l : List (Nat × Inode)) (i j : Nat) (f : Inode → Inode) :
    ((l.map (fun p => if p.1 == i then (p.1, f p.2) else p)).find?
        (fun p => p.1 == j)).map Prod.snd
      = if j = i then ((l.find? (fun p => p.1 == j)).map Prod.snd).map f
        else (l.find? (fun p => p.1 == j)).map Prod.snd := by
  induction l with
  | nil => simp
  | cons a l ih =>
    simp only [List.map_cons, List.find?]
    by_cases hai : a.1 = i
    · have hbi : (a.1 == i) = true := beq_iff_eq.mpr hai
      by_cases haj : a.1 = j
      · have hbj : (a.1 == j) = true := beq_iff_eq.mpr haj
        have hji : j = i := by omega
        simp [hbi, hbj, hji, -List.find?_map]
      · have hbj : (a.1 == j) = false := beq_eq_false_iff_ne.mpr haj
        have hji : j ≠ i := by omega
        simpa [hbi, hbj, hji, -List.find?_map] using ih
    · have hbi : (a.1 == i) = false := beq_eq_false_iff_ne.mpr hai
      by_cases haj : a.1 = j
      · have hbj : (a.1 == j) = true := beq_iff_eq.mpr haj
        have hji : j ≠ i := by omega
        simp [hbi, hbj, hji, -List.find?_map]
      · have hbj : (a.1 == j) = false := beq_eq_false_iff_ne.mpr haj
        simpa [hbi, hbj, -List.find?_map] using ih

theorem ilookup_updateInode (fs : FS) (i : Nat) (f : Inode → Inode) (j : Nat) :
    ilookup (updateInode fs i f) j =
      if j = i then (ilookup fs i).map f else ilookup fs j := by
  have h := find?_map_update fs.inodes i j f
  by_cases hji : j = i
  · subst hji
    simpa [ilookup, updateInode] using h
  · simpa [ilookup, updateInode, hji] using h

theorem ilookup_updateInode_self (fs : FS) (i : Nat) (f : Inode → Inode)
    (doc : Inode) (h : ilookup fs i = some doc) :
    ilookup (updateInode fs i f) i = some (f doc) := by
  rw [ilookup_updateInode]
  simp [h]

theorem ilookup_updateInode_ne (fs : FS) (i : Nat) (f : Inode → Inode) (j : Nat)
    (h : j ≠ i) : ilookup (updateInode fs i f) j = ilookup fs j := by
  rw [ilookup_updateInode, if_neg h]

theorem fdlookup_updateInode (fs : FS) (i : Nat) (f : Inode → Inode) (fd : Nat) :
    fdlookup (updateInode fs i f) fd = fdlookup fs fd := rfl

theorem directory_updateInode (fs : FS) (i : Nat) (f : Inode → Inode) :
    (updateInode fs i f).directory = fs.directory := rfl

theorem dircount_updateInode (fs : FS) (i : Nat) (f : Inode → Inode) (j : Nat) :
    dircount (updateInode fs i f) j = dircount fs j := rfl

theorem find?_filter_ne (l : List (Nat × Inode)) (i : Nat) :
    (l.filter (fun p => p.1 != i)).find? (fun p => p.1 == i) = none := by
  induction l with
  | nil => simp
  | cons a l ih =>
    by_cases h : a.1 = i
    · simp [List.filter_cons, h, ih]
    · simp [List.filter_cons, h, ih]

theorem ilookup_removeInodeRec (fs : FS) (i : Nat) :
    ilookup (removeInodeRec fs i) i = none := by
  simp [ilookup, removeInodeRec, find?_filter_ne]

theorem resolveNames_mem (dir : List DirEntry) :
    ∀ (names : List String) (parent : Option Nat) (e : DirEntry),
      resolveNames (storeFind dir) names parent = Except.ok e → e ∈ dir := by
  intro names
  induction names with
  | nil =>
    intro p e h
    simp [resolveNames] at h
  | cons n rest ih =>
    intro p e h
    rw [resolveNames, storeFind] at h
    cases hf : findDirent dir n p with
    | none => rw [hf] at h; simp at h
    | some d =>
      rw [hf] at h
      have hd : d ∈ dir := List.mem_of_find?_eq_some hf
      cases rest with
      | nil =>
        simp only [Except.ok.injEq] at h
        exact h ▸ hd
      | cons r rs => exact ih _ _ h

theorem find?_unique {α : Type} (l : List α) (p : α → Bool) (e : α)
    (he : e ∈ l) (hpe : p e = true)
    (huniq : ∀ x ∈ l, p x = true → x = e) : l.find? p = some e := by
  induction l with
  | nil => cases he
  | cons a l ih =>
    by_cases hpa : p a = true
    · rw [List.find?_cons_of_pos _ hpa, huniq a (List.mem_cons_self a l) hpa]
    · have hne : a ≠ e := fun h => hpa (h ▸ hpe)
      have he' : e ∈ l := by
        cases he with
        | head => exact absurd rfl hne
        | tail _ h => exact h
      rw [List.find?_cons_of_neg _ hpa]
      exact ih he' (fun x hx hpx => huniq x (List.mem_cons_of_mem a hx) hpx)

/-! ### Concrete fixtures used by the witnesses -/

/-- A small regular-file inode used by the concrete witnesses. -/
def inoW : Inode :=
  { mode := 0o100644, uid := 1000, gid := 1000, ctime := 5, mtime := 5, atime := 5,
    size := some 2, data := some [7, 8] }

/-- A store holding one unlinked, unopened inode. -/
def fsW1 : FS := { inodes := [(1, inoW)], directory := [], openFiles := [] }

/-- A store whose single linked inode has no persisted `size` yet. -/
def fsW5 : FS :=
  { inodes := [(1, { inoW with size := none })],
    directory := [⟨0, "", none, 1⟩], openFiles := [] }

/-! ### Claim theorems -/

/-- C1: `iremove` (invoked by `unlink` and by `release`) deletes the inode
record only when no open-file-table entry references the inode id and the
count of directory entries referencing it is zero.  With an open handle it
returns success leaving the state untouched (so the inode stays
readable/writable through that handle); with remaining links it also
returns success without deleting; with neither, the record is deleted and
no path resolution can reach an entry for it. -/
theorem iremove_conditional_removal (fs : FS) (i : Nat) :
    ((∃ fd of, fdlookup fs fd = some of ∧ of.inode = i) → iremove fs i = (fs, 0)) ∧
    (hasOpen fs i = false → dircount fs i ≠ 0 → iremove fs i = (fs, 0)) ∧
    (hasOpen fs i = false → dircount fs i = 0 →
      (iremove fs i).2 = 0 ∧
      ilookup (iremove fs i).1 i = none ∧
      ∀ (p : String) (e : DirEntry),
        resolvePath (storeFind (iremove fs i).1.directory) p = Except.ok e →
        e.inode ≠ i) := by
  refine ⟨?_, ?_, ?_⟩
  · rintro ⟨fd, of, hfd, hof⟩
    obtain ⟨q, hq, hq2⟩ :
        ∃ q, List.find? (fun p => p.1 == fd) fs.openFiles = some q ∧ q.2 = of := by
      cases hq : List.find? (fun p => p.1 == fd) fs.openFiles with
      | none => rw [fdlookup, hq] at hfd; simp at hfd
      | some q =>
        rw [fdlookup, hq] at hfd
        simp only [Option.map_some', Option.some.injEq] at hfd
        exact ⟨q, rfl, hfd⟩
    have hopen : hasOpen fs i = true := by
      rw [hasOpen, List.any_eq_true]
      exact ⟨q, List.mem_of_find?_eq_some hq, by rw [hq2, hof]; exact beq_self_eq_true i⟩
    simp [iremove, hopen]
  · intro hopen hcnt
    simp [iremove, hopen, hcnt]
  · intro hopen hcnt
    have hrem : iremove fs i = (removeInodeRec fs i, 0) := by
      simp [iremove, hopen, hcnt]
    refine ⟨by rw [hrem], by rw [hrem]; exact ilookup_removeInodeRec fs i, ?_⟩
    intro p e hres hcontra
    have hdir : (iremove fs i).1.directory = fs.directory := by rw [hrem]; rfl
    rw [hdir] at hres
    have hmem := resolveNames_mem fs.directory _ _ _ hres
    have hnil : fs.directory.filter (fun e => e.inode == i) = [] :=
      List.length_eq_zero.mp hcnt
    have := List.filter_eq_nil_iff.mp hnil e hmem
    exact this (by rw [hcontra]; exact beq_self_eq_true i)

/-- C1 witness: in a store where inode 1 has no links and no open handle,
`iremove` succeeds, deletes the record, and no path reaches it. -/
theorem iremove_conditional_removal_witness :
    (iremove fsW1 1).2 = 0 ∧ ilookup (iremove fsW1 1).1 1 = none := by
  have h := (iremove_conditional_removal fsW1 1).2.2 (by decide) (by decide)
  exact ⟨h.1, h.2.1⟩

/-- C2: the permission checker rejects modes outside 0–7 with `EINVAL`,
grants mode 0 unconditionally, grants everything to uid 0, and otherwise
checks exactly one bit group — owner bits for the owner, group bits for a
group member, other bits for everyone else — granting iff every requested
bit is set; in particular with permission bits 000 every non-zero
requested mode from a non-owner non-member fails with `EACCES`. -/
theorem chkaccess_permission_policy (ctx : Ctx) (grp : Int → Int → Bool) (ino : Inode) :
    (∀ m : Int, (m < 0 ∨ 7 < m) → chkaccess ctx grp ino m = einval) ∧
    (chkaccess ctx grp ino 0 = 0) ∧
    (ctx.uid = 0 → ∀ m : Int, 0 ≤ m → m ≤ 7 → chkaccess ctx grp ino m = 0) ∧
    (ctx.uid ≠ 0 → ctx.uid = ino.uid → ∀ m : Int, 1 ≤ m → m ≤ 7 →
      chkaccess ctx grp ino m =
        if ((ino.mode >>> 6) &&& 7) &&& m.toNat = m.toNat then 0 else eacces) ∧
    (ctx.uid ≠ 0 → ctx.uid ≠ ino.uid → grp ctx.uid ino.gid = true →
      ∀ m : Int, 1 ≤ m → m ≤ 7 →
      chkaccess ctx grp ino m =
        if ((ino.mode >>> 3) &&& 7) &&& m.toNat = m.toNat then 0 else eacces) ∧
    (ctx.uid ≠ 0 → ctx.uid ≠ ino.uid → grp ctx.uid ino.gid = false →
      ∀ m : Int, 1 ≤ m → m ≤ 7 →
      chkaccess ctx grp ino m =
        if (ino.mode &&& 7) &&& m.toNat = m.toNat then 0 else eacces) ∧
    (ctx.uid ≠ 0 → ctx.uid ≠ ino.uid → grp ctx.uid ino.gid = false →
      ino.mode &&& 0o777 = 0 →
      ∀ m : Int, 1 ≤ m → m ≤ 7 → chkaccess ctx grp ino m = eacces) := by
  refine ⟨?_, ?_, ?_, ?_, ?_, ?_, ?_⟩
  · intro m hm
    rw [chkaccess, if_pos hm]
  · rw [chkaccess, if_neg (by omega), if_pos rfl]
  · intro h0 m h1 h7
    by_cases hm0 : m = 0
    · subst hm0
      rw [chkaccess, if_neg (by omega), if_pos rfl]
    · rw [chkaccess, if_neg (by omega), if_neg hm0, if_pos h0]
  · intro hne0 hown m h1 h7
    rw [chkaccess, if_neg (by omega), if_neg (by omega), if_neg hne0, if_pos hown]
  · intro hne0 hown hg m h1 h7
    rw [chkaccess, if_neg (by omega), if_neg (by omega), if_neg hne0, if_neg hown,
      if_pos hg]
  · intro hne0 hown hg m h1 h7
    rw [chkaccess, if_neg (by omega), if_neg (by omega), if_neg hne0, if_neg hown,
      if_neg (by simp [hg])]
  · intro hne0 hown hg h000 m h1 h7
    have hm7 : ino.mode &&& 7 = 0 := by
      have h511 : (7 : Nat) = 511 &&& 7 := by decide
      rw [h511, ← Nat.and_assoc, h000, Nat.zero_and]
    rw [chkaccess, if_neg (by omega), if_neg (by omega), if_neg hne0, if_neg hown,
      if_neg (by simp [hg]), hm7, Nat.zero_and, if_neg (by omega)]

/-- C2 witness: a non-owner, non-member caller asking +r on a mode-000
file is denied. -/
theorem chkaccess_permission_policy_witness :
    chkaccess ⟨1001, 1001⟩ (fun _ _ => false) { inoW with mode := 0o100000 } 4 = eacces :=
  (chkaccess_permission_policy ⟨1001, 1001⟩ (fun _ _ => false)
      { inoW with mode := 0o100000 }).2.2.2.2.2.2
    (by decide) (by decide) rfl (by decide) 4 (by decide) (by decide)

/-- Helper: an allowed read delivers the stored payload window after the
atime check. -/
theorem read_delivers (level now : Nat) (fs : FS) (fd : Nat) (of : OpenFile)
    (doc : Inode) (d : List Nat) (buflen len pos : Nat)
    (hfd : fdlookup fs fd = some of) (hfl : of.flags &&& 3 ≠ 1)
    (hdoc : ilookup fs of.inode = some doc)
    (hmode : doc.mode &&& 0o170000 ≠ 0o040000) (hdata : doc.data = some d) :
    read level now fs fd buflen len pos =
      ((chkatime level now fs of.inode doc).1,
        Int.ofNat (min (binRead d pos len).length buflen),
        (binRead d pos len).take buflen) := by
  simp [read, hfd, hfl, hdoc, hmode, hdata]

/-- C5: `igetattr` returns the inode with `nlink` set to the count of
directory entries referencing it; when `size` is absent it computes the
payload length (0 if no payload) and persists it before returning; a
second call without intervening writes returns the same result, leaves the
store unchanged and performs no further write. -/
theorem igetattr_lazy_size (fs : FS) (i : Nat) :
    (ilookup fs i = none → igetattr fs i = (fs, Except.error enoent, 0)) ∧
    (∀ doc, ilookup fs i = some doc →
      ((∀ s, doc.size = some s →
         igetattr fs i = (fs, Except.ok (doc, dircount fs i), 0)) ∧
       (doc.size = none →
         igetattr fs i =
           (updateInode fs i (fun d => { d with size := some (doc.data.getD []).length }),
            Except.ok ({ doc with size := some (doc.data.getD []).length },
              dircount fs i), 1)) ∧
       ((igetattr (igetattr fs i).1 i).1 = (igetattr fs i).1 ∧
        (igetattr (igetattr fs i).1 i).2.1 = (igetattr fs i).2.1 ∧
        (igetattr (igetattr fs i).1 i).2.2 = 0))) := by
  constructor
  · intro h
    simp [igetattr, h]
  · intro doc hdoc
    refine ⟨?_, ?_, ?_⟩
    · intro s hs
      simp [igetattr, hdoc, hs]
    · intro hs
      simp [igetattr, hdoc, hs]
    · cases hs : doc.size with
      | some s =>
        have h1 : igetattr fs i = (fs, Except.ok (doc, dircount fs i), 0) := by
          simp [igetattr, hdoc, hs]
        simp [h1]
      | none =>
        have h1 : igetattr fs i =
            (updateInode fs i (fun d => { d with size := some (doc.data.getD []).length }),
             Except.ok ({ doc with size := some (doc.data.getD []).length },
               dircount fs i), 1) := by
          simp [igetattr, hdoc, hs]
        have h2 : ilookup (updateInode fs i
              (fun d => { d with size := some (doc.data.getD []).length })) i =
            some { doc with size := some (doc.data.getD []).length } :=
          ilookup_updateInode_self _ _ _ _ hdoc
        rw [h1]
        simp [igetattr, h2, dircount_updateInode]

/-- C5 witness: a store whose inode lacks `size` gets it computed and
persisted on the first call (one write), and the second call writes
nothing. -/
theorem igetattr_lazy_size_witness :
    (igetattr fsW5 1).2.2 = 1 ∧ (igetattr (igetattr fsW5 1).1 1).2.2 = 0 := by
  have h := (igetattr_lazy_size fsW5 1).2 { inoW with size := none } (by decide)
  exact ⟨by rw [h.2.1 rfl], h.2.2.2.2⟩

/-- C4: `itruncate` fetches the inode, enforces the write-permission
check, rejects sizes over the 16000000-byte record ceiling with `EFBIG`,
and otherwise persists a zero-filled buffer of exactly `size` bytes with
the surviving payload prefix copied in, refreshing `mtime` and `ctime`; a
subsequent read through an open handle returns exactly that buffer. -/
theorem itruncate_resize (ctx : Ctx) (grp : Int → Int → Bool) (now : Nat)
    (fs : FS) (i : Nat) (size : Nat) :
    (ilookup fs i = none → itruncate ctx grp now fs i size = (fs, enoent)) ∧
    (∀ doc, ilookup fs i = some doc →
      ((chkaccess ctx grp doc 2 ≠ 0 →
         itruncate ctx grp now fs i size = (fs, chkaccess ctx grp doc 2)) ∧
       (chkaccess ctx grp doc 2 = 0 → 16000000 < size →
         itruncate ctx grp now fs i size = (fs, efbig)) ∧
       (chkaccess ctx grp doc 2 = 0 → size ≤ 16000000 →
         (itruncate ctx grp now fs i size).2 = 0 ∧
         ilookup (itruncate ctx grp now fs i size).1 i =
           some { doc with ctime := now, mtime := now,
                           data := some (truncData (doc.data.getD []) size) } ∧
         (truncData (doc.data.getD []) size).length = size ∧
         truncData (doc.data.getD []) size =
           (doc.data.getD []).take size ++
             List.replicate (size - min size (doc.data.getD []).length) 0 ∧
         (∀ fd of level now2,
           fdlookup fs fd = some of → of.inode = i → of.flags &&& 3 ≠ 1 →
           doc.mode &&& 0o170000 ≠ 0o040000 →
           (read level now2 (itruncate ctx grp now fs i size).1 fd size size 0).2.2 =
             truncData (doc.data.getD []) size)))) := by
  constructor
  · intro h
    simp [itruncate, h]
  · intro doc hdoc
    refine ⟨?_, ?_, ?_⟩
    · intro hacc
      simp [itruncate, hdoc, hacc]
    · intro hacc hbig
      simp [itruncate, hdoc, hacc, hbig]
    · intro hacc hsize
      have hn : ¬16000000 < size := by omega
      have hres : itruncate ctx grp now fs i size =
          (updateInode fs i (fun d =>
            { d with ctime := now, mtime := now,
                     data := some (truncData (doc.data.getD []) size) }), 0) := by
        simp [itruncate, hdoc, hacc, hn]
      have htdlen : (truncData (doc.data.getD []) size).length = size := by
        simp [truncData]
      refine ⟨by rw [hres], by rw [hres]; exact ilookup_updateInode_self _ _ _ _ hdoc,
        htdlen, by simp [truncData, List.length_take], ?_⟩
      intro fd of level now2 hfd hof hfl hmode
      subst hof
      have hfd' : fdlookup (itruncate ctx grp now fs of.inode size).1 fd = some of := by
        rw [hres, fdlookup_updateInode]
        exact hfd
      have hil : ilookup (itruncate ctx grp now fs of.inode size).1 of.inode =
          some { doc with ctime := now, mtime := now,
                          data := some (truncData (doc.data.getD []) size) } := by
        rw [hres]
        exact ilookup_updateInode_self _ _ _ _ hdoc
      rw [read_delivers level now2 _ fd of _ (truncData (doc.data.getD []) size)
        size size 0 hfd' hfl hil hmode rfl]
      simp [binRead, List.take_of_length_le (le_of_eq htdlen)]

/-- C4 witness: truncating to 20000000 bytes fails with `EFBIG`;
truncating to 100 bytes succeeds. -/
theorem itruncate_resize_witness :
    itruncate ⟨0, 0⟩ (fun _ _ => false) 9 fsW1 1 20000000 = (fsW1, efbig) ∧
    (itruncate ⟨0, 0⟩ (fun _ _ => false) 9 fsW1 1 100).2 = 0 := by
  have h := (itruncate_resize ⟨0, 0⟩ (fun _ _ => false) 9 fsW1 1 20000000).2 inoW (by decide)
  have h' := (itruncate_resize ⟨0, 0⟩ (fun _ _ => false) 9 fsW1 1 100).2 inoW (by decide)
  exact ⟨h.2.1 (by decide) (by decide), (h'.2.2 (by decide) (by decide)).1⟩

/-- C6 counterexample fixture: atime equal to mtime, ahead of ctime, and
well under a day stale. -/
def inoC6 : Inode :=
  { mode := 0o100644, uid := 1000, gid := 1000, ctime := 0, mtime := 1000, atime := 1000 }

/-- Store for the C6 fixtures. -/
def fsC6 : FS := { inodes := [(1, inoC6)], directory := [], openFiles := [] }

/-- C6 counterexample: under the "relative" policy an inode whose atime is
not strictly older than mtime (they are equal), not older than ctime, and
less than 24 hours stale is still refreshed and persisted — the code
compares with `>=`, not the claim's strict "older than". -/
theorem chkatime_relative_boundary_counterexample :
    ¬(inoC6.atime < inoC6.mtime ∨ inoC6.atime < inoC6.ctime ∨
        86400000 < 1500 - inoC6.atime) ∧
    chkatime 1 1500 fsC6 1 inoC6 =
      ({ fsC6 with inodes := [(1, { inoC6 with atime := 1500 })] }, true) := by
  exact ⟨by decide, by decide⟩

/-- C6 (amended): "off" never touches atime; "strict" always refreshes to
now and persists; "relative" refreshes iff atime is less than *or equal
to* mtime, less than or equal to ctime, or at least 24 hours behind now;
reading twice within the same day without modification advances atime on
the first read only. -/
theorem chkatime_policy (level now : Nat) (fs : FS) (i : Nat) (ino : Inode) :
    (level = 0 → chkatime level now fs i ino = (fs, false)) ∧
    (level = 2 →
      chkatime level now fs i ino =
        (updateInode fs i (fun d => { d with atime := now }), true)) ∧
    (level = 1 →
      ((ino.atime ≤ ino.mtime ∨ ino.atime ≤ ino.ctime ∨
          86400000 ≤ now - ino.atime) →
        chkatime level now fs i ino =
          (updateInode fs i (fun d => { d with atime := now }), true)) ∧
      (ino.mtime < ino.atime → ino.ctime < ino.atime →
        now - ino.atime < 86400000 →
        chkatime level now fs i ino = (fs, false))) ∧
    (∀ fd of doc buflen len pos now1 now2,
      fdlookup fs fd = some of → of.inode = i → of.flags &&& 3 ≠ 1 →
      ilookup fs i = some doc → doc.mode &&& 0o170000 ≠ 0o040000 →
      doc.atime ≤ doc.mtime → doc.mtime < now1 → doc.ctime < now1 →
      now2 - now1 < 86400000 →
      ilookup (read 1 now1 fs fd buflen len pos).1 i =
        some { doc with atime := now1 } ∧
      (read 1 now2 (read 1 now1 fs fd buflen len pos).1 fd buflen len pos).1 =
        (read 1 now1 fs fd buflen len pos).1) := by
  refine ⟨?_, ?_, ?_, ?_⟩
  · intro hl
    subst hl
    simp [chkatime, atimeCond]
  · intro hl
    subst hl
    simp [chkatime, atimeCond]
  · intro hl
    subst hl
    constructor
    · intro h
      have hc : atimeCond 1 now ino = true := by
        simp [atimeCond]
        omega
      simp [chkatime, hc]
    · intro h1 h2 h3
      have hc : atimeCond 1 now ino = false := by
        simp [atimeCond]
        omega
      simp [chkatime, hc]
  · intro fd of doc buflen len pos now1 now2 hfd hof hfl hdoc hmode ham hm1 hc1 hday
    subst hof
    have hc : atimeCond 1 now1 doc = true := by
      simp [atimeCond]
      omega
    have hread1 : (read 1 now1 fs fd buflen len pos).1 =
        updateInode fs of.inode (fun d => { d with atime := now1 }) := by
      cases hd : doc.data with
      | none => simp [read, hfd, hfl, hdoc, hmode, hd, chkatime, hc]
      | some d => simp [read, hfd, hfl, hdoc, hmode, hd, chkatime, hc]
    have hil : ilookup (read 1 now1 fs fd buflen len pos).1 of.inode =
        some { doc with atime := now1 } := by
      rw [hread1]
      exact ilookup_updateInode_self _ _ _ _ hdoc
    refine ⟨hil, ?_⟩
    have hfd2 : fdlookup (read 1 now1 fs fd buflen len pos).1 fd = some of := by
      rw [hread1, fdlookup_updateInode]
      exact hfd
    have hc2 : atimeCond 1 now2 { doc with atime := now1 } = false := by
      simp [atimeCond]
      omega
    generalize hg : (read 1 now1 fs fd buflen len pos).1 = fs1 at hil hfd2 ⊢
    cases hd : doc.data with
    | none =>
      rw [hd] at hc2
      simp [read, hfd2, hfl, hil, hmode, hd, chkatime, hc2]
    | some d =>
      rw [hd] at hc2
      simp [read, hfd2, hfl, hil, hmode, hd, chkatime, hc2]

/-- C6 witness: the "off" policy leaves the store untouched, and under
"relative" an inode whose atime is strictly ahead of both mtime and ctime
and less than a day stale is not refreshed. -/
theorem chkatime_policy_witness :
    chkatime 0 99 fsC6 1 inoC6 = (fsC6, false) ∧
    chkatime 1 2500 fsC6 1 { inoC6 with atime := 2000 } = (fsC6, false) := by
  refine ⟨(chkatime_policy 0 99 fsC6 1 inoC6).1 rfl, ?_⟩
  exact ((chkatime_policy 1 2500 fsC6 1 { inoC6 with atime := 2000 }).2.2.1 rfl).2
    (by decide) (by decide) (by decide)

/-- C7: reads and writes are rejected with `EBADF` on an unknown
descriptor and on one opened with the wrong access mode (write-only for
read; read-only for write, leaving the store untouched), and with `EISDIR`
when the inode's type bits indicate a directory; an allowed read returns
exactly the number of bytes delivered, 0 when the inode has no payload. -/
theorem read_write_handle_errors (fs : FS) (fd : Nat)
    (level now buflen len pos : Nat) (buf : List Nat) :
    (fdlookup fs fd = none →
      read level now fs fd buflen len pos = (fs, ebadf, []) ∧
      write now fs fd buf len pos = (fs, ebadf)) ∧
    (∀ of, fdlookup fs fd = some of →
      ((of.flags &&& 3 = 1 →
         read level now fs fd buflen len pos = (fs, ebadf, [])) ∧
       (of.flags &&& 3 = 0 → write now fs fd buf len pos = (fs, ebadf)) ∧
       (∀ doc, ilookup fs of.inode = some doc →
         ((doc.mode &&& 0o170000 = 0o040000 →
            (of.flags &&& 3 ≠ 1 →
              read level now fs fd buflen len pos = (fs, eisdir, [])) ∧
            (of.flags &&& 3 ≠ 0 → write now fs fd buf len pos = (fs, eisdir))) ∧
          (doc.mode &&& 0o170000 ≠ 0o040000 → of.flags &&& 3 ≠ 1 →
            ((doc.data = none →
               (read level now fs fd buflen len pos).2.1 = 0 ∧
               (read level now fs fd buflen len pos).2.2 = []) ∧
             (read level now fs fd buflen len pos).2.1 =
               Int.ofNat (read level now fs fd buflen len pos).2.2.length)))))) := by
  refine ⟨?_, ?_⟩
  · intro h
    exact ⟨by simp [read, h], by simp [write, h]⟩
  · intro of hfd
    refine ⟨?_, ?_, ?_⟩
    · intro h
      simp [read, hfd, h]
    · intro h
      simp [write, hfd, h]
    · intro doc hdoc
      refine ⟨?_, ?_⟩
      · intro hdirmode
        refine ⟨?_, ?_⟩
        · intro hfl
          simp [read, hfd, hfl, hdoc, hdirmode]
        · intro hfl
          simp [write, hfd, hfl, hdoc, hdirmode]
      · intro hmode hfl
        refine ⟨?_, ?_⟩
        · intro hd
          simp [read, hfd, hfl, hdoc, hmode, hd]
        · cases hd : doc.data with
          | none => simp [read, hfd, hfl, hdoc, hmode, hd]
          | some d =>
            rw [read_delivers level now fs fd of doc d buflen len pos
              hfd hfl hdoc hmode hd]
            simp [List.length_take, Nat.min_comm]

/-- C7 witness: on a one-file store, an unknown descriptor is rejected
with `EBADF` for both read and write. -/
theorem read_write_handle_errors_witness :
    read 1 50 fsW1 99 4 4 0 = (fsW1, ebadf, []) ∧
    write 50 fsW1 99 [1] 1 0 = (fsW1, ebadf) :=
  (read_write_handle_errors fsW1 99 1 50 4 4 0 [1]).1 (by decide)

/-- The `size` field carried by a `getAttributes` result. -/
def attrSize (r : Except Int (Inode × Nat)) : Option Nat :=
  match r with
  | Except.ok (d, _) => d.size
  | Except.error _ => none

/-- A one-file store whose inode already holds a 2-byte payload, open on
descriptor 10 in read-write mode. -/
def fsC3 : FS :=
  { inodes := [(1, inoW)], directory := [⟨0, "", none, 1⟩],
    openFiles := [(10, ⟨1, 2⟩)] }

/-- Helper: a write that passes every check persists the spliced payload
with its length as `size` and fresh timestamps, returning the copied
count. -/
theorem write_persists (now : Nat) (fs : FS) (fd : Nat) (of : OpenFile)
    (doc : Inode) (buf : List Nat) (len pos : Nat)
    (hfd : fdlookup fs fd = some of) (hfl : of.flags &&& 3 ≠ 0)
    (hdoc : ilookup fs of.inode = some doc)
    (hmode : doc.mode &&& 0o170000 ≠ 0o040000)
    (hfit : (binWrite (doc.data.getD [])
        (buf.take len ++ List.replicate (len - (buf.take len).length) 0) pos).length
        ≤ 16000000) :
    write now fs fd buf len pos =
      (updateInode fs of.inode (fun d =>
        { d with ctime := now, mtime := now,
                 size := some (binWrite (doc.data.getD [])
                   (buf.take len ++ List.replicate (len - (buf.take len).length) 0)
                     pos).length,
                 data := some (binWrite (doc.data.getD [])
                   (buf.take len ++ List.replicate (len - (buf.take len).length) 0)
                     pos) }),
        ((min len buf.length : Nat) : Int)) := by
  have hn : ¬16000000 < (binWrite (doc.data.getD [])
      (buf.take len ++ List.replicate (len - (buf.take len).length) 0) pos).length := by
    omega
  simp only [write, hfd, hdoc]
  rw [if_neg hfl, if_neg hmode, if_neg hn]

/-- C3 counterexample: writing one byte at offset 0 through a read-write
handle onto a 2-byte payload round-trips the byte, but the subsequent
`getAttributes` reports size 2, not `len(bytes) = 1` as the claim states
for every file inode. -/
theorem write_read_size_counterexample :
    (write 100 fsC3 10 [9] 1 0).2 = 1 ∧
    (read 0 200 (write 100 fsC3 10 [9] 1 0).1 10 1 1 0).2.2 = [9] ∧
    attrSize (igetattr (read 0 200 (write 100 fsC3 10 [9] 1 0).1 10 1 1 0).1 1).2.1 =
      some 2 ∧
    attrSize (igetattr (read 0 200 (write 100 fsC3 10 [9] 1 0).1 10 1 1 0).1 1).2.1 ≠
      some [9].length := by
  exact ⟨by decide, by decide, by decide, by decide⟩

/-- C3 (amended): through a read-write handle, `write(bytes, offset 0)`
returns `len(bytes)` and a following `read(offset 0, len(bytes))` delivers
exactly `bytes`; the subsequent `getAttributes` reports
`size == max(len(bytes), previous payload length)`, which equals
`len(bytes)` exactly when the previous payload was no longer than the
write. -/
theorem write_read_getattr_roundtrip (fs : FS) (fd : Nat) (of : OpenFile)
    (doc : Inode) (bytes : List Nat) (now level now2 : Nat) :
    fdlookup fs fd = some of →
    ilookup fs of.inode = some doc →
    of.flags &&& 3 = 2 →
    doc.mode &&& 0o170000 ≠ 0o040000 →
    max bytes.length (doc.data.getD []).length ≤ 16000000 →
    (write now fs fd bytes bytes.length 0).2 = (bytes.length : Int) ∧
    (read level now2 (write now fs fd bytes bytes.length 0).1 fd
        bytes.length bytes.length 0).2.2 = bytes ∧
    (read level now2 (write now fs fd bytes bytes.length 0).1 fd
        bytes.length bytes.length 0).2.1 = (bytes.length : Int) ∧
    attrSize (igetattr (read level now2 (write now fs fd bytes bytes.length 0).1 fd
        bytes.length bytes.length 0).1 of.inode).2.1 =
      some (max bytes.length (doc.data.getD []).length) := by
  intro hfd hdoc hfl hmode hceil
  have hfl0 : of.flags &&& 3 ≠ 0 := by omega
  have hfl1 : of.flags &&& 3 ≠ 1 := by omega
  have hdst : bytes.take bytes.length ++
      List.replicate (bytes.length - (bytes.take bytes.length).length) 0 = bytes := by
    simp
  have hnew : binWrite (doc.data.getD []) bytes 0 =
      bytes ++ (doc.data.getD []).drop bytes.length := by
    simp [binWrite]
  have hlen : (bytes ++ (doc.data.getD []).drop bytes.length).length =
      max bytes.length (doc.data.getD []).length := by
    simp [List.length_append, List.length_drop]
    omega
  have hfit : (binWrite (doc.data.getD [])
      (bytes.take bytes.length ++
        List.replicate (bytes.length - (bytes.take bytes.length).length) 0) 0).length
      ≤ 16000000 := by
    rw [hdst, hnew, hlen]
    exact hceil
  have hw := write_persists now fs fd of doc bytes bytes.length 0
    hfd hfl0 hdoc hmode hfit
  rw [hdst, hnew] at hw
  simp only [Nat.min_self] at hw
  refine ⟨by rw [hw], ?_⟩
  have hfd1 : fdlookup (write now fs fd bytes bytes.length 0).1 fd = some of := by
    rw [hw, fdlookup_updateInode]
    exact hfd
  have hil1 : ilookup (write now fs fd bytes bytes.length 0).1 of.inode =
      some { doc with ctime := now, mtime := now,
                      size := some (bytes ++ (doc.data.getD []).drop bytes.length).length,
                      data := some (bytes ++ (doc.data.getD []).drop bytes.length) } := by
    rw [hw]
    exact ilookup_updateInode_self _ _ _ _ hdoc
  have hr := read_delivers level now2 (write now fs fd bytes bytes.length 0).1 fd of
    { doc with ctime := now, mtime := now,
                size := some (bytes ++ (doc.data.getD []).drop bytes.length).length,
                data := some (bytes ++ (doc.data.getD []).drop bytes.length) }
    (bytes ++ (doc.data.getD []).drop bytes.length)
    bytes.length bytes.length 0 hfd1 hfl1 hil1 hmode rfl
  have hbr : binRead (bytes ++ (doc.data.getD []).drop bytes.length) 0 bytes.length =
      bytes := by
    simp [binRead, List.take_left]
  rw [hbr] at hr
  refine ⟨by rw [hr]; simp, by rw [hr]; simp, ?_⟩
  rw [hr]
  cases hac : atimeCond level now2
      { doc with ctime := now, mtime := now,
                 size := some (bytes ++ (doc.data.getD []).drop bytes.length).length,
                 data := some (bytes ++ (doc.data.getD []).drop bytes.length) } with
  | false =>
    have hfsR : (chkatime level now2 (write now fs fd bytes bytes.length 0).1 of.inode
        { doc with ctime := now, mtime := now,
                   size := some (bytes ++ (doc.data.getD []).drop bytes.length).length,
                   data := some (bytes ++ (doc.data.getD []).drop bytes.length) }).1 =
        (write now fs fd bytes bytes.length 0).1 := by
      simp only [chkatime, hac]
      simp
    rw [hfsR]
    simp [igetattr, hil1, attrSize, hlen]
  | true =>
    have hfsR : (chkatime level now2 (write now fs fd bytes bytes.length 0).1 of.inode
        { doc with ctime := now, mtime := now,
                   size := some (bytes ++ (doc.data.getD []).drop bytes.length).length,
                   data := some (bytes ++ (doc.data.getD []).drop bytes.length) }).1 =
        updateInode (write now fs fd bytes bytes.length 0).1 of.inode
          (fun d => { d with atime := now2 }) := by
      simp only [chkatime, hac]
      simp
    rw [hfsR]
    have hil2 := ilookup_updateInode_self (write now fs fd bytes bytes.length 0).1
      of.inode (fun d => { d with atime := now2 }) _ hil1
    simp [igetattr, hil2, attrSize, hlen]

/-- C3 witness: the round-trip through the concrete read-write handle of
`fsC3` returns the written byte count. -/
theorem write_read_getattr_roundtrip_witness :
    (write 100 fsC3 10 [9] ([9] : List Nat).length 0).2 =
      (([9] : List Nat).length : Int) ∧
    (read 0 200 (write 100 fsC3 10 [9] ([9] : List Nat).length 0).1 10
        ([9] : List Nat).length ([9] : List Nat).length 0).2.2 = [9] := by
  have h := write_read_getattr_roundtrip fsC3 10 ⟨1, 2⟩ inoW [9] 100 0 200
    (by decide) (by decide) (by decide) (by decide) (by decide)
  exact ⟨h.1, h.2.1⟩

/-- A one-file store whose root inode carries one extended attribute
under the Base64-encoded key for `user.test`. -/
def fsW8 : FS :=
  { inodes := [(1, { inoW with xattr := some [("dXNlci50ZXN0", [1, 2, 3])] })],
    directory := [⟨0, "", none, 1⟩], openFiles := [] }

/-- The one-file store of the C10 witness. -/
def fsW10 : FS :=
  { inodes := [(1, inoW)], directory := [⟨0, "", none, 1⟩], openFiles := [] }

/-- C8: `getxattr` resolves the path, encodes the attribute name in
Base64 before using it as a store field key, fails with `ENODATA` when the
xattr map or the named attribute is absent, and follows the two-phase
contract: a zero-length destination reports the value's length, a
non-zero destination shorter than the value yields `ERANGE`, and otherwise
the value is copied into the buffer and its length returned. -/
theorem getxattr_two_phase (fs : FS) (path name : String) (buflen len off : Nat)
    (de : DirEntry) (ino : Inode) :
    resolvePath (storeFind fs.directory) path = Except.ok de →
    ilookup fs de.inode = some ino →
    ((ino.xattr = none → getxattr fs path name buflen len off = (enodata, [])) ∧
     (∀ m, ino.xattr = some m →
       ((m.lookup (b64enc name) = none →
          getxattr fs path name buflen len off = (enodata, [])) ∧
        (∀ v, m.lookup (b64enc name) = some v →
          ((len = 0 →
             getxattr fs path name buflen len off = ((v.length : Int), [])) ∧
           (0 < len → len < v.length →
             getxattr fs path name buflen len off = (erange, [])) ∧
           (v.length ≤ len → off = 0 → len ≤ buflen →
             getxattr fs path name buflen len off = ((v.length : Int), v))))))) := by
  intro hres hino
  refine ⟨?_, ?_⟩
  · intro hx
    simp [getxattr, hres, hino, hx]
  · intro m hx
    refine ⟨?_, ?_⟩
    · intro hv
      simp [getxattr, hres, hino, hx, hv]
    · intro v hv
      refine ⟨?_, ?_, ?_⟩
      · intro hl
        subst hl
        simp [getxattr, hres, hino, hx, hv]
      · intro hl0 hlv
        have hne : len ≠ 0 := by omega
        simp [getxattr, hres, hino, hx, hv, hne, hlv]
      · intro hvl hoff hlb
        subst hoff
        by_cases hl0 : len = 0
        · subst hl0
          have hv0 : v = [] := List.eq_nil_of_length_eq_zero (by omega)
          simp [getxattr, hres, hino, hx, hv, hv0]
        · have hnl : ¬len < v.length := by omega
          have hb : binRead v 0 len = v := by
            simp [binRead, List.take_of_length_le hvl]
          have hm1 : min v.length (buflen - 0) = v.length := by omega
          have hm2 : v.take (buflen - 0) = v :=
            List.take_of_length_le (by omega)
          simp [getxattr, hres, hino, hx, hv, hl0, hnl, hb, hm1, hm2]
          omega

/-- C8 witness: on a store whose inode carries one extended attribute
stored under the Base64-encoded key, the three phases behave as
specified. -/
theorem getxattr_two_phase_witness :
    getxattr fsW8 "/" "user.test" 0 0 0 = (3, []) ∧
    getxattr fsW8 "/" "user.test" 2 2 0 = (erange, []) ∧
    getxattr fsW8 "/" "user.test" 8 8 0 = (3, [1, 2, 3]) ∧
    getxattr fsW8 "/" "user.gone" 8 8 0 = (enodata, []) := by
  have h := getxattr_two_phase fsW8 "/" "user.test" 0 0 0 ⟨0, "", none, 1⟩
    { inoW with xattr := some [("dXNlci50ZXN0", [1, 2, 3])] } rfl (by decide)
  have h2 := getxattr_two_phase fsW8 "/" "user.test" 2 2 0 ⟨0, "", none, 1⟩
    { inoW with xattr := some [("dXNlci50ZXN0", [1, 2, 3])] } rfl (by decide)
  have h3 := getxattr_two_phase fsW8 "/" "user.test" 8 8 0 ⟨0, "", none, 1⟩
    { inoW with xattr := some [("dXNlci50ZXN0", [1, 2, 3])] } rfl (by decide)
  have h4 := getxattr_two_phase fsW8 "/" "user.gone" 8 8 0 ⟨0, "", none, 1⟩
    { inoW with xattr := some [("dXNlci50ZXN0", [1, 2, 3])] } rfl (by decide)
  refine ⟨?_, ?_, ?_, ?_⟩
  · exact ((h.2 _ rfl).2 [1, 2, 3] (by decide)).1 rfl
  · exact ((h2.2 _ rfl).2 [1, 2, 3] (by decide)).2.1 (by decide) (by decide)
  · exact ((h3.2 _ rfl).2 [1, 2, 3] (by decide)).2.2 (by decide) rfl (by decide)
  · exact (h4.2 _ rfl).1 (by decide)

/-- C9: path resolution splits on `/` (with `/` itself reduced to the
single empty component) and walks from the synthetic null parent;
resolving `/` yields the unique entry with empty name and null parent;
each step looks the component name up under the current parent id, turns
a store failure into `EIO`, a missing entry into `ENOENT`, and otherwise
continues with the found entry as parent. -/
theorem resolvePath_walk :
    (∀ (find : String → Option Nat → Except Unit (Option DirEntry)) (path : String),
      resolvePath find path =
        resolveNames find (splitSlash (if path = "/" then "" else path)) none) ∧
    (∀ (dir : List DirEntry) (e : DirEntry),
      e ∈ dir → e.name = "" → e.parent = none →
      (∀ e' ∈ dir, e'.name = "" → e'.parent = none → e' = e) →
      resolvePath (storeFind dir) "/" = Except.ok e) ∧
    (∀ (find : String → Option Nat → Except Unit (Option DirEntry))
       (n : String) (rest : List String) (p : Option Nat),
      ((∀ u, find n p = Except.error u →
         resolveNames find (n :: rest) p = Except.error eio) ∧
       (find n p = Except.ok none →
         resolveNames find (n :: rest) p = Except.error enoent) ∧
       (∀ e, find n p = Except.ok (some e) →
         resolveNames find (n :: rest) p =
           if rest.isEmpty then Except.ok e
           else resolveNames find rest (some e.id)))) := by
  refine ⟨fun find path => rfl, ?_, ?_⟩
  · intro dir e he hname hparent huniq
    have hfind : findDirent dir "" none = some e := by
      apply find?_unique
      · exact he
      · simp [hname, hparent]
      · intro x hx hpx
        simp only [Bool.and_eq_true, beq_iff_eq] at hpx
        exact huniq x hx hpx.1 hpx.2
    have hroot : resolvePath (storeFind dir) "/" =
        resolveNames (storeFind dir) [""] none := rfl
    rw [hroot]
    simp [resolveNames, storeFind, hfind]
  · intro find n rest p
    refine ⟨?_, ?_, ?_⟩
    · intro u hu
      simp [resolveNames, hu]
    · intro hn
      simp [resolveNames, hn]
    · intro e he
      cases rest with
      | nil => simp [resolveNames, he]
      | cons r rs => simp [resolveNames, he]

/-- C9 witness: on a directory holding exactly the root entry and one
child, `/` resolves to the root entry. -/
theorem resolvePath_walk_witness :
    resolvePath (storeFind fsW8.directory) "/" = Except.ok ⟨0, "", none, 1⟩ := by
  exact resolvePath_walk.2.1 fsW8.directory ⟨0, "", none, 1⟩ (by decide) rfl rfl
    (by decide)

/-- C10: `chown` with the `-1`/`-1` "no change" sentinels succeeds for the
owner or the superuser and persists only a fresh `ctime`: the negative uid
and gid are never written, every other field of the inode is unchanged,
and no other store record is touched. -/
theorem chown_noop_frame (ctx : Ctx) (grp : Int → Int → Bool) (now : Nat)
    (fs : FS) (path : String) (de : DirEntry) (doc : Inode) :
    resolvePath (storeFind fs.directory) path = Except.ok de →
    ilookup fs de.inode = some doc →
    (ctx.uid = 0 ∨ ctx.uid = doc.uid) →
    (chown ctx grp now fs path (-1) (-1)).2 = 0 ∧
    ilookup (chown ctx grp now fs path (-1) (-1)).1 de.inode =
      some { doc with ctime := now } ∧
    (∀ j, j ≠ de.inode →
      ilookup (chown ctx grp now fs path (-1) (-1)).1 j = ilookup fs j) ∧
    (chown ctx grp now fs path (-1) (-1)).1.directory = fs.directory ∧
    (chown ctx grp now fs path (-1) (-1)).1.openFiles = fs.openFiles := by
  intro hres hdoc hperm
  have h1 : ¬(ctx.uid ≠ 0 ∧ ctx.uid ≠ doc.uid) := by tauto
  have hch : chown ctx grp now fs path (-1) (-1) =
      (updateInode fs de.inode (fun d => { d with ctime := now }), 0) := by
    simp [chown, hres, hdoc, h1]
  refine ⟨by rw [hch], ?_, ?_, ?_, ?_⟩
  · rw [hch]
    exact ilookup_updateInode_self _ _ _ _ hdoc
  · intro j hj
    rw [hch]
    exact ilookup_updateInode_ne _ _ _ _ hj
  · rw [hch]
    rfl
  · rw [hch]
    rfl

/-- C10 witness: the owner running `chown(path, -1, -1)` on the root file
of the one-file store gets success, a refreshed ctime, and untouched
uid/gid. -/
theorem chown_noop_frame_witness :
    (chown ⟨1000, 1000⟩ (fun _ _ => false) 77 fsW10 "/" (-1) (-1)).2 = 0 ∧
    ilookup (chown ⟨1000, 1000⟩ (fun _ _ => false) 77 fsW10 "/" (-1) (-1)).1 1 =
      some { inoW with ctime := 77 } := by
  have h := chown_noop_frame ⟨1000, 1000⟩ (fun _ _ => false) 77 fsW10 "/"
    ⟨0, "", none, 1⟩ inoW rfl (by decide) (Or.inr rfl)
  exact ⟨h.1, h.2.1⟩

end Mongofuse
